import Mathlib

/-!
Shallow embedding of the announced-address resolution and external-binary
location core of `src/app/src/config.template.js` (functions `getIPv4`,
`getLocalIPv4`, `scanAllInterfaces`, `findValidAddress`, `getFFmpegPath`),
together with proofs of the specification claims about it.

Modelling conventions:
- JavaScript strings are Lean `String`s; `str.includes`, `str.startsWith`
  and `str.toLowerCase` are embedded as executable functions over `.toList`.
- The interface table returned by `os.networkInterfaces()` is an association
  list from interface name to its list of address records; `ifaces[k]` is
  `List.lookup k ifaces` (absent key = `none`, matching JS `undefined` and
  the `?.` guard in `findValidAddress`).
- JS truthiness on optional strings (`if (addr) return addr`) is the
  predicate `truthy`: `undefined`/`null` and the empty string are falsy.
- The environment mode and the platform identifier are plain strings, as in
  the source (`switch (ENVIRONMENT)`, `PRIORITY_CONFIG[platform] || []`).
- The filesystem existence check `fs.accessSync` is a boolean oracle
  parameter `fsExists`.
-/

namespace Spectrum

/-- One address record as reported by `os.networkInterfaces()`:
`{ family, address, internal }`.  `family` is the literal string tag
(`"IPv4"` / `"IPv6"`), exactly as compared by `addr.family === 'IPv4'`. -/
structure AddressRecord where
  family : String
  address : String
  internal : Bool
deriving DecidableEq, Repr

/-- The interface table: interface name ↦ its ordered address records. -/
abbrev Ifaces := List (String × List AddressRecord)

/-- JS `needle` occurs in `hay` (`hay.includes(needle)`), on char lists:
either `needle` is a prefix of `hay` or it occurs in the tail. -/
def listContains (needle : List Char) : List Char → Bool
  | [] => needle.isEmpty
  | c :: rest => needle.isPrefixOf (c :: rest) || listContains needle rest

/-- JS `hay.includes(needle)` on strings (case-sensitive substring test). -/
def jsIncludes (hay needle : String) : Bool :=
  listContains needle.toList hay.toList

/-- JS `s.toLowerCase()` (ASCII lowering suffices for the fragments used). -/
def strToLower (s : String) : String :=
  String.mk (s.toList.map Char.toLower)

/-- JS `hay.toLowerCase().includes(needle.toLowerCase())`. -/
def jsIncludesCI (hay needle : String) : Bool :=
  jsIncludes (strToLower hay) (strToLower needle)

/-- JS `s.startsWith(pre)`. -/
def jsStartsWith (s pre : String) : Bool :=
  pre.toList.isPrefixOf s.toList

/-- JS truthiness of an optional string: `undefined` and `""` are falsy. -/
def truthy : Option String → Bool
  | none => false
  | some s => !(s == "")

/-- The predicate of `findValidAddress`:
`addr.family === 'IPv4' && !addr.internal && !addr.address.startsWith('169.254.')`. -/
def isUsable (r : AddressRecord) : Bool :=
  r.family == "IPv4" && !r.internal && !(jsStartsWith r.address "169.254.")

/-- `findValidAddress(addresses)`:
`addresses?.find((addr) => ...)?.address`.  The argument is optional because
the caller may index a missing interface name (`ifaces[interfaceName]`). -/
def findValidAddress (addresses : Option (List AddressRecord)) : Option String :=
  match addresses with
  | none => none
  | some l => (l.find? isUsable).map (fun r => r.address)

/-- The `PRIORITY_CONFIG` object of `getLocalIPv4` (names only, as the
source stores `{ name: '...' }` singletons); indexing an unknown platform
yields `none`, which the caller defaults with `|| []`. -/
def PRIORITY_CONFIG (platform : String) : Option (List String) :=
  if platform == "win32" then some ["Ethernet", "Wi-Fi", "Local Area Connection"]
  else if platform == "darwin" then some ["en0", "en1"]
  else if platform == "linux" then some ["eth0", "wlan0"]
  else none

/-- `VIRTUAL_INTERFACES.all` of `getLocalIPv4`. -/
def VIRTUAL_INTERFACES_all : List String := ["docker", "veth", "tun", "lo"]

/-- The platform-specific rows of `VIRTUAL_INTERFACES`. -/
def VIRTUAL_INTERFACES (platform : String) : Option (List String) :=
  if platform == "win32" then some ["Virtual", "vEthernet", "Teredo", "Bluetooth"]
  else if platform == "darwin" then some ["awdl", "bridge", "utun"]
  else if platform == "linux" then some ["virbr", "kube", "cni"]
  else none

/-- `[...VIRTUAL_INTERFACES.all, ...(VIRTUAL_INTERFACES[platform] || [])]`. -/
def virtualExcludes (platform : String) : List String :=
  VIRTUAL_INTERFACES_all ++ (VIRTUAL_INTERFACES platform).getD []

/-- The `matchingIfaces` expression of the priority loop: on win32 every
table key containing the priority name as a substring, otherwise the literal
singleton `[ifName]`. -/
def matchingIfaces (ifaces : Ifaces) (platform : String) (ifName : String) : List String :=
  if platform == "win32" then (ifaces.map Prod.fst).filter (fun k => jsIncludes k ifName)
  else [ifName]

/-- The inner priority loop: for each matched interface name look the name
up in the table, and return the first truthy `findValidAddress` result
(`if (addr) return addr`). -/
def tryMatching (ifaces : Ifaces) : List String → Option String
  | [] => none
  | interfaceName :: rest =>
    let addr := findValidAddress (List.lookup interfaceName ifaces)
    if truthy addr then addr else tryMatching ifaces rest

/-- The outer priority loop of `getLocalIPv4` over the priority names. -/
def priorityScan (ifaces : Ifaces) (platform : String) : List String → Option String
  | [] => none
  | ifName :: rest =>
    match tryMatching ifaces (matchingIfaces ifaces platform ifName) with
    | some addr => some addr
    | none => priorityScan ifaces platform rest

/-- `scanAllInterfaces(ifaces, excludes)`: walk `Object.entries(ifaces)`,
skip names matching an exclude fragment case-insensitively, return the
first truthy valid address, else `null`. -/
def scanAllInterfaces : Ifaces → List String → Option String
  | [], _ => none
  | (name, addresses) :: rest, excludes =>
    if excludes.any (fun ex => jsIncludesCI name ex) then
      scanAllInterfaces rest excludes
    else
      let addr := findValidAddress (some addresses)
      if truthy addr then addr else scanAllInterfaces rest excludes

/-- `getLocalIPv4()`, with the interface table and the platform string made
explicit parameters (the source reads them from `os` at the same point). -/
def getLocalIPv4 (ifaces : Ifaces) (platform : String) : String :=
  match priorityScan ifaces platform ((PRIORITY_CONFIG platform).getD []) with
  | some addr => addr
  | none =>
    match scanAllInterfaces ifaces (virtualExcludes platform) with
    | some fallbackAddress => fallbackAddress
    | none => "0.0.0.0"

/-- `getIPv4()`, with the ambient inputs (`ANNOUNCED_IP`, `ENVIRONMENT`,
`IS_DOCKER`, interface table, platform) made explicit parameters.
`if (ANNOUNCED_IP)` is JS truthiness on a string: non-empty wins. -/
def getIPv4 (ANNOUNCED_IP ENVIRONMENT : String) (IS_DOCKER : Bool)
    (ifaces : Ifaces) (platform : String) : String :=
  if ANNOUNCED_IP ≠ "" then ANNOUNCED_IP
  else if ENVIRONMENT == "development" then
    (if IS_DOCKER then "127.0.0.1" else getLocalIPv4 ifaces platform)
  else if ENVIRONMENT == "production" then ANNOUNCED_IP
  else getLocalIPv4 ifaces platform

/-- The `paths` object of `getFFmpegPath`; unknown platforms yield `none`,
defaulted by the caller with `|| ['/usr/bin/ffmpeg']`. -/
def ffmpegPathsTable (platform : String) : Option (List String) :=
  if platform == "darwin" then some ["/usr/local/bin/ffmpeg", "/opt/homebrew/bin/ffmpeg"]
  else if platform == "linux" then some ["/usr/bin/ffmpeg", "/usr/local/bin/ffmpeg"]
  else if platform == "win32" then
    some ["C:\\ffmpeg\\bin\\ffmpeg.exe", "C:\\Program Files\\ffmpeg\\bin\\ffmpeg.exe"]
  else none

/-- `paths[platform] || ['/usr/bin/ffmpeg']`. -/
def ffmpegCandidates (platform : String) : List String :=
  (ffmpegPathsTable platform).getD ["/usr/bin/ffmpeg"]

/-- The try/catch loop of `getFFmpegPath`: return the first path for which
`fs.accessSync` succeeds, else nothing. -/
def ffmpegSearch (fsExists : String → Bool) : List String → Option String
  | [] => none
  | path :: rest => if fsExists path then some path else ffmpegSearch fsExists rest

/-- `getFFmpegPath(platform)`, with `fs.accessSync` abstracted as the
boolean oracle `fsExists`; falls back to `platformPaths[0]`. -/
def getFFmpegPath (fsExists : String → Bool) (platform : String) : String :=
  match ffmpegSearch fsExists (ffmpegCandidates platform) with
  | some path => path
  | none => (ffmpegCandidates platform).headD ""

/-- Split a character list at every `'.'` (used only to state the spec's
dotted-quad invariant, not taken from the source). -/
def splitDots : List Char → List (List Char)
  | [] => [[]]
  | c :: rest =>
    if c == '.' then [] :: splitDots rest
    else
      match splitDots rest with
      | [] => [[c]]
      | p :: ps => (c :: p) :: ps

/-- Decimal value of a digit run (spec vocabulary). -/
def decVal (l : List Char) : Nat :=
  l.foldl (fun n c => n * 10 + (c.toNat - 48)) 0

/-- The specification's notion (§3 invariant) of a syntactically dotted-quad
IPv4 string: four dot-separated components, each a non-empty run of decimal
digits with value at most 255.  This is spec vocabulary for stating the
invariant claim; it does not occur in the source. -/
def isDottedQuad (s : String) : Bool :=
  let parts := splitDots s.toList
  parts.length == 4 &&
    parts.all fun p => !p.isEmpty && p.all (fun c => c.isDigit) && decide (decVal p ≤ 255)

/-! ### Helper lemmas about the string primitives -/

lemma isPrefixOf_eq_take (pre : List Char) :
    ∀ l : List Char, pre.isPrefixOf l = true ↔ l.take pre.length = pre := by
  induction pre with
  | nil => intro l; simp [List.isPrefixOf]
  | cons p ps ih =>
    intro l
    cases l with
    | nil => simp [List.isPrefixOf]
    | cons c cs =>
      simp only [List.isPrefixOf, Bool.and_eq_true, beq_iff_eq, List.length_cons,
        List.take_succ_cons, List.cons.injEq, ih cs]
      constructor
      · rintro ⟨h1, h2⟩; exact ⟨h1.symm, h2⟩
      · rintro ⟨h1, h2⟩; exact ⟨h1.symm, h2⟩

lemma isPrefixOf_iff_append (pre : List Char) :
    ∀ l : List Char, pre.isPrefixOf l = true ↔ ∃ t, pre ++ t = l := by
  induction pre with
  | nil => intro l; simp [List.isPrefixOf]
  | cons p ps ih =>
    intro l
    cases l with
    | nil => simp [List.isPrefixOf]
    | cons c cs =>
      simp only [List.isPrefixOf, Bool.and_eq_true, beq_iff_eq, ih cs]
      constructor
      · rintro ⟨rfl, t, ht⟩
        exact ⟨t, by rw [List.cons_append, ht]⟩
      · rintro ⟨t, ht⟩
        rw [List.cons_append] at ht
        injection ht with h1 h2
        exact ⟨h1, t, h2⟩

lemma listContains_iff (needle : List Char) :
    ∀ hay : List Char, listContains needle hay = true ↔ ∃ l1 l2, hay = l1 ++ needle ++ l2 := by
  intro hay
  induction hay with
  | nil =>
    simp only [listContains, List.isEmpty_iff]
    constructor
    · rintro rfl; exact ⟨[], [], rfl⟩
    · rintro ⟨l1, l2, h⟩
      rcases List.append_eq_nil.mp h.symm with ⟨h12, rfl⟩
      rcases List.append_eq_nil.mp h12 with ⟨rfl, rfl⟩
      rfl
  | cons c cs ih =>
    simp only [listContains, Bool.or_eq_true, ih, isPrefixOf_iff_append]
    constructor
    · rintro (⟨t, ht⟩ | ⟨l1, l2, rfl⟩)
      · exact ⟨[], t, by simp [ht.symm]⟩
      · exact ⟨c :: l1, l2, by simp⟩
    · rintro ⟨l1, l2, h⟩
      cases l1 with
      | nil => exact Or.inl ⟨l2, by simpa using h.symm⟩
      | cons x xs =>
        rw [List.cons_append] at h
        injection h with h1 h2
        exact Or.inr ⟨xs, l2, h2⟩

lemma jsIncludes_iff (hay needle : String) :
    jsIncludes hay needle = true ↔ ∃ l1 l2, hay.toList = l1 ++ needle.toList ++ l2 :=
  listContains_iff needle.toList hay.toList

lemma jsIncludesCI_iff (hay needle : String) :
    jsIncludesCI hay needle = true ↔
      ∃ l1 l2, (strToLower hay).toList = l1 ++ (strToLower needle).toList ++ l2 :=
  listContains_iff (strToLower needle).toList (strToLower hay).toList

lemma truthy_iff (a : Option String) : truthy a = true ↔ ∃ s, a = some s ∧ s ≠ "" := by
  cases a with
  | none => simp [truthy]
  | some s => simp [truthy]

/-! ### Helper lemmas about the scanning core -/

lemma findValidAddress_sound {l : List AddressRecord} {a : String}
    (h : findValidAddress (some l) = some a) :
    ∃ r ∈ l, isUsable r = true ∧ r.address = a := by
  simp only [findValidAddress, Option.map_eq_some'] at h
  rcases h with ⟨r, hfind, rfl⟩
  exact ⟨r, List.mem_of_find?_eq_some hfind, List.find?_some hfind, rfl⟩

lemma lookup_mem {ifaces : Ifaces} {k : String} {v : List AddressRecord}
    (h : List.lookup k ifaces = some v) : (k, v) ∈ ifaces := by
  induction ifaces with
  | nil => simp [List.lookup] at h
  | cons hd tl ih =>
    rcases hd with ⟨k', v'⟩
    cases hk : k == k' with
    | true =>
      simp only [List.lookup_cons, hk] at h
      injection h with h
      have hkk : k = k' := beq_iff_eq.mp hk
      subst hkk
      subst h
      exact List.mem_cons_self _ _
    | false =>
      simp only [List.lookup_cons, hk] at h
      exact List.mem_cons_of_mem _ (ih h)

lemma tryMatching_sound {ifaces : Ifaces} {names : List String} {a : String}
    (h : tryMatching ifaces names = some a) :
    a ≠ "" ∧ ∃ n l, (n, l) ∈ ifaces ∧ findValidAddress (some l) = some a := by
  induction names with
  | nil => simp [tryMatching] at h
  | cons n rest ih =>
    rw [tryMatching] at h
    by_cases ht : truthy (findValidAddress (List.lookup n ifaces)) = true
    · rw [if_pos ht] at h
      rcases (truthy_iff _).mp ht with ⟨s, hs, hne⟩
      rw [hs] at h
      injection h with h
      subst h
      cases hl : List.lookup n ifaces with
      | none => rw [hl] at hs; simp [findValidAddress] at hs
      | some l =>
        rw [hl] at hs
        exact ⟨hne, n, l, lookup_mem hl, hs⟩
    · rw [if_neg ht] at h
      exact ih h

lemma priorityScan_sound {ifaces : Ifaces} {platform : String} {names : List String} {a : String}
    (h : priorityScan ifaces platform names = some a) :
    a ≠ "" ∧ ∃ n l, (n, l) ∈ ifaces ∧ findValidAddress (some l) = some a := by
  induction names with
  | nil => simp [priorityScan] at h
  | cons n rest ih =>
    rw [priorityScan] at h
    cases hm : tryMatching ifaces (matchingIfaces ifaces platform n) with
    | some addr =>
      rw [hm] at h
      injection h with h
      exact h ▸ tryMatching_sound hm
    | none =>
      rw [hm] at h
      exact ih h

lemma scanAllInterfaces_sound {ifaces : Ifaces} {excludes : List String} {a : String}
    (h : scanAllInterfaces ifaces excludes = some a) :
    a ≠ "" ∧ ∃ name addrs, (name, addrs) ∈ ifaces ∧
      (excludes.any fun ex => jsIncludesCI name ex) = false ∧
      findValidAddress (some addrs) = some a := by
  induction ifaces with
  | nil => simp [scanAllInterfaces] at h
  | cons hd rest ih =>
    rcases hd with ⟨name, addresses⟩
    rw [scanAllInterfaces] at h
    by_cases hex : (excludes.any fun ex => jsIncludesCI name ex) = true
    · rw [if_pos hex] at h
      rcases ih h with ⟨hne, n, l, hmem, hnex, hfv⟩
      exact ⟨hne, n, l, List.mem_cons_of_mem _ hmem, hnex, hfv⟩
    · rw [if_neg hex] at h
      by_cases ht : truthy (findValidAddress (some addresses)) = true
      · rw [if_pos ht] at h
        rcases (truthy_iff _).mp ht with ⟨s, hs, hne⟩
        rw [hs] at h
        injection h with h
        subst h
        exact ⟨hne, name, addresses, List.mem_cons_self _ _,
          Bool.eq_false_iff.mpr hex, hs⟩
      · rw [if_neg ht] at h
        rcases ih h with ⟨hne, n, l, hmem, hnex, hfv⟩
        exact ⟨hne, n, l, List.mem_cons_of_mem _ hmem, hnex, hfv⟩

/-- Every result of `getLocalIPv4` is the sentinel or a usable, non-empty
address of some record actually present in the interface table. -/
lemma getLocalIPv4_cases (ifaces : Ifaces) (platform : String) :
    getLocalIPv4 ifaces platform = "0.0.0.0" ∨
      (getLocalIPv4 ifaces platform ≠ "" ∧ ∃ name addrs r, (name, addrs) ∈ ifaces ∧
        r ∈ addrs ∧ isUsable r = true ∧ r.address = getLocalIPv4 ifaces platform) := by
  rw [getLocalIPv4]
  cases hp : priorityScan ifaces platform ((PRIORITY_CONFIG platform).getD []) with
  | some addr =>
    rcases priorityScan_sound hp with ⟨hne, n, l, hmem, hfv⟩
    rcases findValidAddress_sound hfv with ⟨r, hr, hus, haddr⟩
    exact Or.inr ⟨hne, n, l, r, hmem, hr, hus, haddr⟩
  | none =>
    cases hs : scanAllInterfaces ifaces (virtualExcludes platform) with
    | some fallbackAddress =>
      rcases scanAllInterfaces_sound hs with ⟨hne, n, l, hmem, _, hfv⟩
      rcases findValidAddress_sound hfv with ⟨r, hr, hus, haddr⟩
      exact Or.inr ⟨hne, n, l, r, hmem, hr, hus, haddr⟩
    | none => exact Or.inl rfl

lemma jsStartsWith_false_iff (s pre : String) :
    jsStartsWith s pre = false ↔ s.toList.take pre.toList.length ≠ pre.toList := by
  rw [Bool.eq_false_iff]
  exact not_congr (isPrefixOf_eq_take pre.toList s.toList)

lemma isUsable_iff_take (r : AddressRecord) :
    isUsable r = true ↔
      r.family = "IPv4" ∧ r.internal = false ∧ r.address.toList.take 8 ≠ "169.254.".toList := by
  have h8 : ("169.254." : String).toList.length = 8 := rfl
  rw [isUsable]
  simp only [Bool.and_eq_true, beq_iff_eq, Bool.not_eq_true']
  rw [jsStartsWith_false_iff, h8, and_assoc]

lemma getLocalIPv4_nil (platform : String) : getLocalIPv4 [] platform = "0.0.0.0" := by
  rcases getLocalIPv4_cases [] platform with h | ⟨_, n, l, r, hmem, _⟩
  · exact h
  · simp at hmem

lemma isDottedQuad_getLocalIPv4 (ifaces : Ifaces) (platform : String)
    (hwf : ∀ e ∈ ifaces, ∀ r ∈ e.2, r.family = "IPv4" → isDottedQuad r.address = true) :
    isDottedQuad (getLocalIPv4 ifaces platform) = true := by
  rcases getLocalIPv4_cases ifaces platform with h | ⟨_, name, addrs, r, hmem, hr, hus, haddr⟩
  · rw [h]; decide
  · have hfam : r.family = "IPv4" := ((isUsable_iff_take r).mp hus).1
    rw [← haddr]
    exact hwf (name, addrs) hmem r hr hfam

lemma tryMatching_of_mem {ifaces : Ifaces} {names : List String} {n : String} {a : String}
    (hn : n ∈ names) (hfv : findValidAddress (List.lookup n ifaces) = some a) (hne : a ≠ "") :
    ∃ b, tryMatching ifaces names = some b ∧ b ≠ "" := by
  induction names with
  | nil => simp at hn
  | cons m rest ih =>
    rw [tryMatching]
    by_cases ht : truthy (findValidAddress (List.lookup m ifaces)) = true
    · rw [if_pos ht]
      rcases (truthy_iff _).mp ht with ⟨s, hs, hsne⟩
      exact ⟨s, hs, hsne⟩
    · rw [if_neg ht]
      rcases List.mem_cons.mp hn with rfl | hn'
      · exact absurd ((truthy_iff _).mpr ⟨a, hfv, hne⟩) ht
      · exact ih hn'

lemma priorityScan_of_match {ifaces : Ifaces} {platform : String} {names : List String}
    {pn n : String} {a : String}
    (hpn : pn ∈ names) (hn : n ∈ matchingIfaces ifaces platform pn)
    (hfv : findValidAddress (List.lookup n ifaces) = some a) (hne : a ≠ "") :
    ∃ b, priorityScan ifaces platform names = some b ∧ b ≠ "" := by
  induction names with
  | nil => simp at hpn
  | cons pn0 rest ih =>
    rw [priorityScan]
    cases hm : tryMatching ifaces (matchingIfaces ifaces platform pn0) with
    | some addr => exact ⟨addr, rfl, (tryMatching_sound hm).1⟩
    | none =>
      rcases List.mem_cons.mp hpn with rfl | hpn'
      · rcases tryMatching_of_mem hn hfv hne with ⟨b, hb, _⟩
        rw [hm] at hb
        exact absurd hb (by simp)
      · exact ih hpn'

lemma ffmpegSearch_first {fsExists : String → Bool} :
    ∀ (l1 : List String) (p : String) (l2 : List String),
      (∀ q ∈ l1, fsExists q = false) → fsExists p = true →
      ffmpegSearch fsExists (l1 ++ p :: l2) = some p := by
  intro l1
  induction l1 with
  | nil =>
    intro p l2 _ hp
    simp [ffmpegSearch, hp]
  | cons q qs ih =>
    intro p l2 hq hp
    have hq0 : fsExists q = false := hq q (List.mem_cons_self _ _)
    rw [List.cons_append]
    simp only [ffmpegSearch, hq0]
    simp only [Bool.false_eq_true, if_false]
    exact ih p l2 (fun x hx => hq x (List.mem_cons_of_mem _ hx)) hp

lemma ffmpegSearch_none {fsExists : String → Bool} :
    ∀ l : List String, (∀ q ∈ l, fsExists q = false) → ffmpegSearch fsExists l = none := by
  intro l
  induction l with
  | nil => intro _; rfl
  | cons q qs ih =>
    intro h
    have hq0 : fsExists q = false := h q (List.mem_cons_self _ _)
    simp only [ffmpegSearch, hq0]
    simp only [Bool.false_eq_true, if_false]
    exact ih fun x hx => h x (List.mem_cons_of_mem _ hx)

lemma ffmpegCandidates_head (platform : String) :
    ∃ p rest, ffmpegCandidates platform = p :: rest ∧ p ≠ "" := by
  unfold ffmpegCandidates ffmpegPathsTable
  repeat' split
  all_goals exact ⟨_, _, rfl, by decide⟩

/-! ### Claim theorems -/

/-- C1: for every non-empty override string, `getIPv4` returns exactly that
override, regardless of environment mode, containerization flag, platform
and interface table; no interface scan influences the result. -/
theorem getIPv4_nonempty_override (ANNOUNCED_IP ENVIRONMENT : String) (IS_DOCKER : Bool)
    (ifaces : Ifaces) (platform : String) (h : ANNOUNCED_IP ≠ "") :
    getIPv4 ANNOUNCED_IP ENVIRONMENT IS_DOCKER ifaces platform = ANNOUNCED_IP := by
  simp only [getIPv4]
  rw [if_pos h]

theorem getIPv4_nonempty_override_witness :
    ("203.0.113.7" : String) ≠ "" ∧
      getIPv4 "203.0.113.7" "production" true [("eth0", [⟨"IPv6", "::1", false⟩])] "linux"
        = "203.0.113.7" :=
  ⟨by decide,
   getIPv4_nonempty_override "203.0.113.7" "production" true
     [("eth0", [⟨"IPv6", "::1", false⟩])] "linux" (by decide)⟩

/-- C2: with an empty override in production mode, `getIPv4` returns the
override verbatim (the empty string) for every containerization flag,
interface table and platform; it never scans and never yields the sentinel. -/
theorem getIPv4_production_empty_override (IS_DOCKER : Bool) (ifaces : Ifaces)
    (platform : String) :
    getIPv4 "" "production" IS_DOCKER ifaces platform = "" := by
  simp only [getIPv4]
  rw [if_neg (fun hc => hc rfl), if_neg (by decide), if_pos (by decide)]

/-- C3 counterexample: on linux, the priority interface `eth0` holds a record
satisfying the address validator (`family=IPv4`, not internal, not
link-local) whose address is the empty string.  The claim says the scan then
returns a priority-pass result and the exhaustive pass never runs; in fact
the priority pass yields nothing (JS truthiness rejects the empty string)
and the result `10.0.0.5` comes from the exhaustive pass over `enp3s0`. -/
theorem priorityPass_empty_address_counterexample :
    "eth0" ∈ (PRIORITY_CONFIG "linux").getD [] ∧
    isUsable ⟨"IPv4", "", false⟩ = true ∧
    List.lookup "eth0"
      ([("eth0", [⟨"IPv4", "", false⟩]), ("enp3s0", [⟨"IPv4", "10.0.0.5", false⟩])] : Ifaces)
      = some [⟨"IPv4", "", false⟩] ∧
    priorityScan [("eth0", [⟨"IPv4", "", false⟩]), ("enp3s0", [⟨"IPv4", "10.0.0.5", false⟩])]
      "linux" ((PRIORITY_CONFIG "linux").getD []) = none ∧
    scanAllInterfaces
      [("eth0", [⟨"IPv4", "", false⟩]), ("enp3s0", [⟨"IPv4", "10.0.0.5", false⟩])]
      (virtualExcludes "linux") = some "10.0.0.5" ∧
    getLocalIPv4 [("eth0", [⟨"IPv4", "", false⟩]), ("enp3s0", [⟨"IPv4", "10.0.0.5", false⟩])]
      "linux" = "10.0.0.5" := by
  decide

/-- C3 amended: (i) whenever the priority pass yields a result, that result
is the value of `getLocalIPv4` (the exhaustive pass never runs); (ii) if any
interface matched by some priority name yields a non-empty address
satisfying the validator, the priority pass yields a result; (iii) within
the priority pass, once a priority name's matched interfaces yield a usable
address, the later priority names are not tried (the result is independent
of them). -/
theorem priorityScan_first_success :
    (∀ (ifaces : Ifaces) (platform addr : String),
       priorityScan ifaces platform ((PRIORITY_CONFIG platform).getD []) = some addr →
       getLocalIPv4 ifaces platform = addr) ∧
    (∀ (ifaces : Ifaces) (platform : String) (names : List String) (pn n a : String),
       pn ∈ names → n ∈ matchingIfaces ifaces platform pn →
       findValidAddress (List.lookup n ifaces) = some a → a ≠ "" →
       priorityScan ifaces platform names ≠ none) ∧
    (∀ (ifaces : Ifaces) (platform n : String) (rest : List String) (a : String),
       tryMatching ifaces (matchingIfaces ifaces platform n) = some a →
       priorityScan ifaces platform (n :: rest) = some a) := by
  refine ⟨?_, ?_, ?_⟩
  · intro ifaces platform addr h
    simp only [getLocalIPv4, h]
  · intro ifaces platform names pn n a hpn hn hfv hne
    rcases priorityScan_of_match hpn hn hfv hne with ⟨b, hb, _⟩
    rw [hb]
    simp
  · intro ifaces platform n rest a h
    rw [priorityScan, h]

theorem priorityScan_first_success_witness :
    getLocalIPv4 [("eth0", [⟨"IPv4", "192.168.1.5", false⟩])] "linux" = "192.168.1.5" ∧
    priorityScan [("eth0", [⟨"IPv4", "192.168.1.5", false⟩])] "linux" ["eth0", "wlan0"]
      ≠ none ∧
    priorityScan [("eth0", [⟨"IPv4", "192.168.1.5", false⟩])] "linux" ("eth0" :: ["wlan0"])
      = some "192.168.1.5" :=
  ⟨priorityScan_first_success.1 [("eth0", [⟨"IPv4", "192.168.1.5", false⟩])] "linux"
     "192.168.1.5" (by decide),
   priorityScan_first_success.2.1 [("eth0", [⟨"IPv4", "192.168.1.5", false⟩])] "linux"
     ["eth0", "wlan0"] "eth0" "eth0" "192.168.1.5" (by decide) (by decide) (by decide)
     (by decide),
   priorityScan_first_success.2.2 [("eth0", [⟨"IPv4", "192.168.1.5", false⟩])] "linux"
     "eth0" ["wlan0"] "192.168.1.5" (by decide)⟩

/-- C4: every address returned by the exhaustive pass run with the platform's
exclusion set (the global fragments `docker`,`veth`,`tun`,`lo` unioned with
the platform-specific ones) comes from a table entry whose name, lowered,
contains no excluded fragment (lowered) as a substring. -/
theorem scanAllInterfaces_never_excluded (ifaces : Ifaces) (platform a : String)
    (h : scanAllInterfaces ifaces (virtualExcludes platform) = some a) :
    ∃ name addrs, (name, addrs) ∈ ifaces ∧
      (∀ ex ∈ virtualExcludes platform,
        ¬ ∃ l1 l2, (strToLower name).toList = l1 ++ (strToLower ex).toList ++ l2) ∧
      findValidAddress (some addrs) = some a := by
  rcases scanAllInterfaces_sound h with ⟨_, name, addrs, hmem, hnex, hfv⟩
  refine ⟨name, addrs, hmem, ?_, hfv⟩
  intro ex hex hcontra
  have hany : ((virtualExcludes platform).any fun e => jsIncludesCI name e) = true :=
    List.any_eq_true.mpr ⟨ex, hex, (jsIncludesCI_iff name ex).mpr hcontra⟩
  rw [hnex] at hany
  exact Bool.false_ne_true hany

theorem scanAllInterfaces_never_excluded_witness :
    scanAllInterfaces [("docker0", [⟨"IPv4", "172.17.0.1", false⟩]),
        ("enp3s0", [⟨"IPv4", "10.0.0.5", false⟩])] (virtualExcludes "linux")
      = some "10.0.0.5" ∧
    ∃ name addrs,
      (name, addrs) ∈ ([("docker0", [⟨"IPv4", "172.17.0.1", false⟩]),
        ("enp3s0", [⟨"IPv4", "10.0.0.5", false⟩])] : Ifaces) ∧
      (∀ ex ∈ virtualExcludes "linux",
        ¬ ∃ l1 l2, (strToLower name).toList = l1 ++ (strToLower ex).toList ++ l2) ∧
      findValidAddress (some addrs) = some "10.0.0.5" :=
  ⟨by decide,
   scanAllInterfaces_never_excluded
     [("docker0", [⟨"IPv4", "172.17.0.1", false⟩]), ("enp3s0", [⟨"IPv4", "10.0.0.5", false⟩])]
     "linux" "10.0.0.5" (by decide)⟩

/-- C5: the address validator accepts a record exactly when its family tag is
`"IPv4"`, its internal flag is false, and its address does not begin with the
eight characters `169.254.`; in particular it rejects every IPv6 record,
every internal record, and every link-local-prefixed address. -/
theorem isUsable_spec :
    (∀ r : AddressRecord, isUsable r = true ↔
       (r.family = "IPv4" ∧ r.internal = false ∧
         r.address.toList.take 8 ≠ "169.254.".toList)) ∧
    (∀ r : AddressRecord, r.family = "IPv6" → isUsable r = false) ∧
    (∀ r : AddressRecord, r.internal = true → isUsable r = false) ∧
    (∀ r : AddressRecord, r.address.toList.take 8 = "169.254.".toList →
       isUsable r = false) := by
  refine ⟨isUsable_iff_take, ?_, ?_, ?_⟩
  · intro r h
    rw [isUsable, h]
    simp
  · intro r h
    rw [isUsable, h]
    simp
  · intro r h
    cases hu : isUsable r with
    | false => rfl
    | true => exact absurd h ((isUsable_iff_take r).mp hu).2.2

theorem isUsable_spec_witness :
    (isUsable ⟨"IPv4", "192.168.1.5", false⟩ = true) ∧
    (isUsable ⟨"IPv6", "fe80::1", false⟩ = false) ∧
    (isUsable ⟨"IPv4", "192.168.1.5", true⟩ = false) ∧
    (isUsable ⟨"IPv4", "169.254.10.2", false⟩ = false) :=
  ⟨(isUsable_spec.1 ⟨"IPv4", "192.168.1.5", false⟩).mpr ⟨rfl, rfl, by decide⟩,
   isUsable_spec.2.1 ⟨"IPv6", "fe80::1", false⟩ rfl,
   isUsable_spec.2.2.1 ⟨"IPv4", "192.168.1.5", true⟩ rfl,
   isUsable_spec.2.2.2 ⟨"IPv4", "169.254.10.2", false⟩ (by decide)⟩

/-- C6: with no override, `getFFmpegPath` tries the platform's candidate list
in order and returns the first path passing the existence check; when no
candidate exists it still returns the first candidate of the list, a
non-empty string whose existence check fails (`verified=false`). -/
theorem getFFmpegPath_spec :
    (∀ (fsExists : String → Bool) (platform : String) (l1 : List String) (p : String)
       (l2 : List String),
       ffmpegCandidates platform = l1 ++ p :: l2 →
       (∀ q ∈ l1, fsExists q = false) → fsExists p = true →
       getFFmpegPath fsExists platform = p) ∧
    (∀ (fsExists : String → Bool) (platform : String),
       (∀ q ∈ ffmpegCandidates platform, fsExists q = false) →
       getFFmpegPath fsExists platform = (ffmpegCandidates platform).headD "" ∧
       getFFmpegPath fsExists platform ≠ "" ∧
       fsExists (getFFmpegPath fsExists platform) = false) := by
  constructor
  · intro fsExists platform l1 p l2 hcand hl1 hp
    simp only [getFFmpegPath, hcand, ffmpegSearch_first l1 p l2 hl1 hp]
  · intro fsExists platform hall
    have hnone := ffmpegSearch_none (ffmpegCandidates platform) hall
    rcases ffmpegCandidates_head platform with ⟨p, rest, hc, hpne⟩
    have hnone' : ffmpegSearch fsExists (p :: rest) = none := hc ▸ hnone
    have hres : getFFmpegPath fsExists platform = p := by
      simp only [getFFmpegPath, hc, hnone', List.headD_cons]
    refine ⟨?_, ?_, ?_⟩
    · rw [hres, hc, List.headD_cons]
    · rw [hres]; exact hpne
    · rw [hres]
      exact hall p (hc ▸ List.mem_cons_self _ _)

theorem getFFmpegPath_spec_witness :
    getFFmpegPath (fun q => q == "/opt/homebrew/bin/ffmpeg") "darwin"
      = "/opt/homebrew/bin/ffmpeg" ∧
    (getFFmpegPath (fun _ => false) "darwin" = (ffmpegCandidates "darwin").headD "" ∧
     getFFmpegPath (fun _ => false) "darwin" ≠ "" ∧
     (fun _ => false) (getFFmpegPath (fun _ => false) "darwin") = false) :=
  ⟨getFFmpegPath_spec.1 (fun q => q == "/opt/homebrew/bin/ffmpeg") "darwin"
     ["/usr/local/bin/ffmpeg"] "/opt/homebrew/bin/ffmpeg" [] (by decide) (by decide)
     (by decide),
   getFFmpegPath_spec.2 (fun _ => false) "darwin" (by decide)⟩

/-- C7: the core is total on degenerate inputs and never needs to raise: an
empty interface table yields the sentinel on every platform (including
platforms with no table row); a missing address list is absorbed by the `?.`
guard of `findValidAddress`; a table whose every interface has no addresses
yields the sentinel; `getIPv4` on an empty table always produces the
override, the loopback, or the sentinel; and with no existing candidate path
`getFFmpegPath` still produces a non-empty best-effort path. -/
theorem core_total :
    (∀ platform : String, getLocalIPv4 [] platform = "0.0.0.0") ∧
    findValidAddress none = none ∧
    (∀ (names : List String) (platform : String),
       getLocalIPv4 (names.map fun n => (n, [])) platform = "0.0.0.0") ∧
    (∀ (ip env : String) (docker : Bool) (platform : String),
       getIPv4 ip env docker [] platform = ip ∨
       getIPv4 ip env docker [] platform = "127.0.0.1" ∨
       getIPv4 ip env docker [] platform = "0.0.0.0") ∧
    (∀ (fsExists : String → Bool) (platform : String),
       (∀ q ∈ ffmpegCandidates platform, fsExists q = false) →
       getFFmpegPath fsExists platform ≠ "") := by
  refine ⟨getLocalIPv4_nil, rfl, ?_, ?_, ?_⟩
  · intro names platform
    rcases getLocalIPv4_cases (names.map fun n => (n, [])) platform with h |
      ⟨_, name, addrs, r, hmem, hr, _, _⟩
    · exact h
    · rcases List.mem_map.mp hmem with ⟨n', _, heq⟩
      have : addrs = [] := (Prod.mk.injEq _ _ _ _).mp heq |>.2.symm
      rw [this] at hr
      simp at hr
  · intro ip env docker platform
    by_cases hip : ip = ""
    · subst hip
      simp only [getIPv4]
      rw [if_neg (fun hc => hc rfl)]
      by_cases henv : (env == "development") = true
      · rw [if_pos henv]
        by_cases hd : docker = true
        · rw [if_pos hd]; exact Or.inr (Or.inl rfl)
        · rw [if_neg hd]; exact Or.inr (Or.inr (getLocalIPv4_nil platform))
      · rw [if_neg henv]
        by_cases hprod : (env == "production") = true
        · rw [if_pos hprod]; exact Or.inl rfl
        · rw [if_neg hprod]; exact Or.inr (Or.inr (getLocalIPv4_nil platform))
    · refine Or.inl ?_
      simp only [getIPv4]
      rw [if_pos hip]
  · intro fsExists platform hall
    have hnone := ffmpegSearch_none (ffmpegCandidates platform) hall
    rcases ffmpegCandidates_head platform with ⟨p, rest, hc, hpne⟩
    have hnone' : ffmpegSearch fsExists (p :: rest) = none := hc ▸ hnone
    simp only [getFFmpegPath, hc, hnone', List.headD_cons]
    exact hpne

theorem core_total_witness :
    getLocalIPv4 [] "sunos" = "0.0.0.0" ∧
    getLocalIPv4 [("eth0", []), ("wlan0", [])] "linux" = "0.0.0.0" ∧
    (getIPv4 "" "staging" false [] "linux" = "" ∨
     getIPv4 "" "staging" false [] "linux" = "127.0.0.1" ∨
     getIPv4 "" "staging" false [] "linux" = "0.0.0.0") ∧
    getFFmpegPath (fun _ => false) "sunos" ≠ "" :=
  ⟨core_total.1 "sunos",
   core_total.2.2.1 ["eth0", "wlan0"] "linux",
   core_total.2.2.2.1 "" "staging" false "linux",
   core_total.2.2.2.2 (fun _ => false) "sunos" (by decide)⟩

/-- C8 counterexample: the claimed invariant fails.  A non-empty override of
arbitrary content is returned verbatim: the IPv6 override `::1` in
development mode produces the ip `::1`, which is not a dotted quad.
Independently, even with no override, a table record tagged `IPv4` whose
address string is not dotted-quad is returned verbatim by the scan. -/
theorem resolve_dotted_quad_counterexample :
    getIPv4 "::1" "development" false [] "linux" = "::1" ∧
    isDottedQuad "::1" = false ∧
    getIPv4 "" "development" false [("eth0", [⟨"IPv4", "not-an-ip", false⟩])] "linux"
      = "not-an-ip" ∧
    isDottedQuad "not-an-ip" = false := by
  decide

/-- C8 amended: with an empty override, outside production mode, and for an
interface table in which every record tagged `IPv4` carries a syntactically
dotted-quad address, `getIPv4` returns a syntactically dotted-quad IPv4
string (hence never empty and never IPv6). -/
theorem resolve_dotted_quad_amended (env : String) (docker : Bool) (ifaces : Ifaces)
    (platform : String) (hprod : env ≠ "production")
    (hwf : ∀ e ∈ ifaces, ∀ r ∈ e.2, r.family = "IPv4" → isDottedQuad r.address = true) :
    isDottedQuad (getIPv4 "" env docker ifaces platform) = true := by
  simp only [getIPv4]
  rw [if_neg (fun hc => hc rfl)]
  by_cases henv : (env == "development") = true
  · rw [if_pos henv]
    by_cases hd : docker = true
    · rw [if_pos hd]; decide
    · rw [if_neg hd]
      exact isDottedQuad_getLocalIPv4 ifaces platform hwf
  · rw [if_neg henv, if_neg (fun hc => hprod (beq_iff_eq.mp hc))]
    exact isDottedQuad_getLocalIPv4 ifaces platform hwf

theorem resolve_dotted_quad_amended_witness :
    isDottedQuad
      (getIPv4 "" "development" false [("eth0", [⟨"IPv4", "192.168.1.5", false⟩])] "linux")
      = true :=
  resolve_dotted_quad_amended "development" false
    [("eth0", [⟨"IPv4", "192.168.1.5", false⟩])] "linux" (by decide) (by decide)

/-- C9: the exclusion filtering applies only to the exhaustive pass.  On
win32 the interface `vEthernet (WSL)` is matched by the priority name
`Ethernet` through case-sensitive substring matching and its address is
returned by `getLocalIPv4`, even though its name contains the excluded
fragment `vEthernet` — the exhaustive pass alone would have skipped it. -/
theorem priority_pass_ignores_exclusions :
    getLocalIPv4 [("vEthernet (WSL)", [⟨"IPv4", "172.29.112.1", false⟩])] "win32"
      = "172.29.112.1" ∧
    "Ethernet" ∈ (PRIORITY_CONFIG "win32").getD [] ∧
    jsIncludes "vEthernet (WSL)" "Ethernet" = true ∧
    "vEthernet" ∈ virtualExcludes "win32" ∧
    jsIncludesCI "vEthernet (WSL)" "vEthernet" = true ∧
    scanAllInterfaces [("vEthernet (WSL)", [⟨"IPv4", "172.29.112.1", false⟩])]
      (virtualExcludes "win32") = none := by
  decide

/-- C10: scan soundness — whenever `getLocalIPv4` returns anything but the
sentinel, the returned string is the address field of a record present in
the input table whose family is `"IPv4"`, whose internal flag is false, and
whose address does not start with `169.254.`. -/
theorem getLocalIPv4_sound (ifaces : Ifaces) (platform : String)
    (h : getLocalIPv4 ifaces platform ≠ "0.0.0.0") :
    ∃ name addrs r, (name, addrs) ∈ ifaces ∧ r ∈ addrs ∧
      r.address = getLocalIPv4 ifaces platform ∧ r.family = "IPv4" ∧
      r.internal = false ∧ r.address.toList.take 8 ≠ "169.254.".toList := by
  rcases getLocalIPv4_cases ifaces platform with hs | ⟨_, name, addrs, r, hmem, hr, hus, haddr⟩
  · exact absurd hs h
  · rcases (isUsable_iff_take r).mp hus with ⟨hf, hi, hp⟩
    exact ⟨name, addrs, r, hmem, hr, haddr, hf, hi, hp⟩

theorem getLocalIPv4_sound_witness :
    getLocalIPv4 [("wlp2s0", [⟨"IPv4", "10.1.2.3", false⟩])] "linux" ≠ "0.0.0.0" ∧
    ∃ name addrs r,
      (name, addrs) ∈ ([("wlp2s0", [⟨"IPv4", "10.1.2.3", false⟩])] : Ifaces) ∧ r ∈ addrs ∧
      r.address = getLocalIPv4 [("wlp2s0", [⟨"IPv4", "10.1.2.3", false⟩])] "linux" ∧
      r.family = "IPv4" ∧ r.internal = false ∧
      r.address.toList.take 8 ≠ "169.254.".toList :=
  ⟨by decide,
   getLocalIPv4_sound [("wlp2s0", [⟨"IPv4", "10.1.2.3", false⟩])] "linux" (by decide)⟩

end Spectrum
